import Mathlib

/-
  Verification of the noteplop staff-geometry engine.

  Shallow embedding of the geometry code of the repository:
  * _durationConnectorUtils.ts  (calculateDurationConnectors)
  * _beamingUtils.ts            (groupNotesForBeaming, getUnbeamedNotes)
  * the stem-direction module   (calculateStemDirection, calculateBeamGroupStemDirection)
  * _NoteHead.tsx               (calculateLedgerLines)
  * NotePlopper.tsx             (snapToStaff, snapToGrid, SNAP_POINTS, getMinX)

  Numbers are embedded as rationals (exact arithmetic); JS Math.round is
  floor(x + 1/2), which matches its half-up behaviour.  Note durations are
  string values at runtime (the TypeScript union is erased, and the code
  indexes string-keyed tables with an || fallback), so the duration field is
  embedded as String and the lookup tables as String-keyed partial maps.
-/

namespace Noteplop

/-- JS Math.round: nearest integer, halves rounding toward positive infinity. -/
def jsRound (q : ℚ) : ℤ := ⌊q + 1/2⌋

/-- A note placed on the staff (ScoreContext.types PlacedNote).  The duration
field is the runtime string key. -/
structure PlacedNote where
  id : String
  x : ℚ
  y : ℚ
  duration : String
deriving DecidableEq, Inhabited

/-- The transient preview note (NotePlopper.types GhostNote): same shape as a
placed note but with no id. -/
structure GhostNote where
  x : ℚ
  y : ℚ
  duration : String
deriving DecidableEq, Inhabited

/-- calculateDurationConnectors pushes the ghost note into the placed-note
array (cast with as any); the missing id is never read there. -/
def GhostNote.toPlaced (g : GhostNote) : PlacedNote :=
  { id := "", x := g.x, y := g.y, duration := g.duration }

/-- A vertical connector between two aligned duration lines
(_durationConnectorUtils.ts). -/
structure DurationConnector where
  x : ℚ
  y1 : ℚ
  y2 : ℚ
  color : String
deriving DecidableEq, Inhabited

/-- DURATION_COLORS of _durationConnectorUtils.ts as a string-keyed lookup. -/
def DURATION_COLORS (d : String) : Option String :=
  if d = "whole" then some "#4A90E2"
  else if d = "half" then some "#50C878"
  else if d = "quarter" then some "#F5A623"
  else if d = "eighth" then some "#FF6B35"
  else if d = "sixteenth" then some "#E83F6F"
  else none

/-- DURATION_IN_STEPS of _durationConnectorUtils.ts: beat durations in grid
steps (15-division grid). -/
def DURATION_IN_STEPS (d : String) : Option ℚ :=
  if d = "whole" then some 15
  else if d = "half" then some 8
  else if d = "quarter" then some 4
  else if d = "eighth" then some 2
  else if d = "sixteenth" then some 1
  else none

/-- The ordering used by allNotes.sort((a, b) => a.x - b.x). -/
def byX (a b : PlacedNote) : Prop := a.x ≤ b.x

instance : DecidableRel byX := fun a b => inferInstanceAs (Decidable (a.x ≤ b.x))

instance : IsTotal PlacedNote byX := ⟨fun a b => le_total a.x b.x⟩

instance : IsTrans PlacedNote byX := ⟨fun _ _ _ h h' => le_trans h h'⟩

/-- JS Array.prototype.sort with comparator (a, b) => a.x - b.x: a stable sort
ascending by x. -/
def sortByX (notes : List PlacedNote) : List PlacedNote := List.insertionSort byX notes

/-- DURATION_IN_STEPS[duration] || 3.75 of calculateDurationConnectors: the ||
fallback fires exactly on a missing key (no table entry is falsy). -/
def stepsInDuration (d : String) : ℚ := (DURATION_IN_STEPS d).getD 3.75

/-- Step size derived in calculateDurationConnectors from the leftmost note:
first measure is detected by firstX === 240. -/
def connectorStepSize (firstX : ℚ) : ℚ :=
  let minX : ℚ := if firstX = 240 then 240 else 40
  (760 - minX) / 15

/-- Expected distance based on the previous note's duration in steps. -/
def expectedDistance (d : String) (firstX : ℚ) : ℚ :=
  stepsInDuration d * connectorStepSize firstX

/-- Math.round(d * 10) / 10: rounding to the nearest 0.1. -/
def round10 (q : ℚ) : ℚ := (jsRound (q * 10) : ℚ) / 10

/-- Inner-loop body of calculateDurationConnectors: compare the current note
against one previous note, possibly producing a connector. -/
def connectorCheck (firstX : ℚ) (previousNote currentNote : PlacedNote) :
    Option DurationConnector :=
  if currentNote.y = previousNote.y then none
  else
    let actualDistance := currentNote.x - previousNote.x
    if round10 actualDistance = round10 (expectedDistance previousNote.duration firstX) then
      some { x := currentNote.x, y1 := previousNote.y, y2 := currentNote.y,
             color := (DURATION_COLORS previousNote.duration).getD "#FFFFFF" }
    else none

/-- calculateDurationConnectors of _durationConnectorUtils.ts: merge placed
notes with the optional ghost note, sort by x, and for each note at position
index check all previous notes (indices 0 .. index-1) in order, pushing a
connector for every match. -/
def calculateDurationConnectors (placedNotes : List PlacedNote)
    (ghostNote : Option GhostNote) : List DurationConnector :=
  let allNotes := placedNotes ++ (ghostNote.map GhostNote.toPlaced).toList
  if allNotes.isEmpty then []
  else
    let sorted := sortByX allNotes
    let firstX := sorted.headI.x
    (List.range sorted.length).flatMap fun index =>
      (sorted.take index).filterMap fun previousNote =>
        connectorCheck firstX previousNote (sorted.getD index default)

/-- The merged note list handed to the connector matcher. -/
def mergedNotes (placed : List PlacedNote) (ghost : Option GhostNote) : List PlacedNote :=
  placed ++ (ghost.map GhostNote.toPlaced).toList

/-- MAX_BEAM_DISTANCE of _beamingUtils.ts. -/
def MAX_BEAM_DISTANCE : ℚ := 70

/-- Loop body of groupNotesForBeaming; the accumulator is the pair
(completed beam groups, current run). -/
def groupStep (acc : List (List PlacedNote) × List PlacedNote) (note : PlacedNote) :
    List (List PlacedNote) × List PlacedNote :=
  let beamGroups := acc.1
  let currentGroup := acc.2
  if ¬ (note.duration = "eighth" ∨ note.duration = "sixteenth") then
    (if 2 ≤ currentGroup.length then beamGroups ++ [currentGroup] else beamGroups, [])
  else if currentGroup.length = 0 then
    (beamGroups, [note])
  else
    let lastNote := currentGroup.getLast?.getD default
    let xDistance := note.x - lastNote.x
    if xDistance ≤ MAX_BEAM_DISTANCE then
      (beamGroups, currentGroup ++ [note])
    else
      (if 2 ≤ currentGroup.length then beamGroups ++ [currentGroup] else beamGroups, [note])

/-- groupNotesForBeaming of _beamingUtils.ts. -/
def groupNotesForBeaming (notes : List PlacedNote) : List (List PlacedNote) :=
  let sortedNotes := sortByX notes
  let acc := sortedNotes.foldl groupStep ([], [])
  if 2 ≤ acc.2.length then acc.1 ++ [acc.2] else acc.1

/-- getUnbeamedNotes of _beamingUtils.ts: the notes whose id is not in the set
of beamed note ids. -/
def getUnbeamedNotes (notes : List PlacedNote) (beamGroups : List (List PlacedNote)) :
    List PlacedNote :=
  let beamedNoteIds := beamGroups.flatten.map (fun n => n.id)
  notes.filter (fun note => !(beamedNoteIds.contains note.id))

/-- Stem direction values. -/
inductive StemDirection where
  | up
  | down
deriving DecidableEq

/-- MIDDLE_STAFF_LINE_Y: middle staff line (line 3). -/
def MIDDLE_STAFF_LINE_Y : ℚ := 400

/-- calculateStemDirection: notes above the middle line get stems down, notes
on or below it get stems up. -/
def calculateStemDirection (noteY : ℚ) : StemDirection :=
  if noteY < MIDDLE_STAFF_LINE_Y then .down else .up

/-- calculateBeamGroupStemDirection: average y of the group's notes; the empty
group returns up. -/
def calculateBeamGroupStemDirection (notes : List PlacedNote) : StemDirection :=
  if notes.length = 0 then .up
  else
    let averageY := (notes.foldl (fun sum note => sum + note.y) (0 : ℚ)) / (notes.length : ℚ)
    calculateStemDirection averageY

/-- TOP_STAFF_LINE of _NoteHead.tsx. -/
def TOP_STAFF_LINE : ℚ := 250

/-- BOTTOM_STAFF_LINE of _NoteHead.tsx. -/
def BOTTOM_STAFF_LINE : ℚ := 550

/-- LINE_SPACING: distance between staff lines and ledger lines. -/
def LINE_SPACING : ℚ := 75

/-- The above-staff while loop of calculateLedgerLines, embedded with explicit
iteration fuel: push ledgerY and step down by LINE_SPACING while
ledgerY >= bound. -/
def ledgerLoopAbove : ℕ → ℚ → ℚ → List ℚ
  | 0, _, _ => []
  | fuel + 1, ledgerY, bound =>
    if bound ≤ ledgerY then ledgerY :: ledgerLoopAbove fuel (ledgerY - LINE_SPACING) bound
    else []

/-- The below-staff while loop of calculateLedgerLines: push ledgerY and step
up by LINE_SPACING while ledgerY <= bound. -/
def ledgerLoopBelow : ℕ → ℚ → ℚ → List ℚ
  | 0, _, _ => []
  | fuel + 1, ledgerY, bound =>
    if ledgerY ≤ bound then ledgerY :: ledgerLoopBelow fuel (ledgerY + LINE_SPACING) bound
    else []

/-- Exact iteration count of the above loop: starting at start and stepping
down by LINE_SPACING, the guard start - LINE_SPACING * k >= bound holds for
k = 0 .. floor((start - bound) / LINE_SPACING). -/
def aboveFuel (start bound : ℚ) : ℕ := (⌊(start - bound) / LINE_SPACING⌋ + 1).toNat

/-- Exact iteration count of the below loop. -/
def belowFuel (start bound : ℚ) : ℕ := (⌊(bound - start) / LINE_SPACING⌋ + 1).toNat

/-- calculateLedgerLines of _NoteHead.tsx; each while loop is embedded with
fuel equal to its exact iteration count. -/
def calculateLedgerLines (y : ℚ) : List ℚ :=
  (if y < TOP_STAFF_LINE then
    ledgerLoopAbove (aboveFuel (TOP_STAFF_LINE - LINE_SPACING) (y - LINE_SPACING / 2))
      (TOP_STAFF_LINE - LINE_SPACING) (y - LINE_SPACING / 2)
  else []) ++
  (if BOTTOM_STAFF_LINE < y then
    ledgerLoopBelow (belowFuel (BOTTOM_STAFF_LINE + LINE_SPACING) (y + LINE_SPACING / 2))
      (BOTTOM_STAFF_LINE + LINE_SPACING) (y + LINE_SPACING / 2)
  else [])

/-- STAFF_LINE_POSITIONS of NotePlopper.tsx. -/
def STAFF_LINE_POSITIONS : List ℚ := [250, 325, 400, 475, 550]

/-- Ledger line positions above the staff (three lines). -/
def LEDGER_LINE_POSITIONS_ABOVE : List ℚ :=
  [250 - LINE_SPACING, 250 - LINE_SPACING * 2, 250 - LINE_SPACING * 3]

/-- Ledger line positions below the staff (three lines). -/
def LEDGER_LINE_POSITIONS_BELOW : List ℚ :=
  [550 + LINE_SPACING, 550 + LINE_SPACING * 2, 550 + LINE_SPACING * 3]

/-- STAFF_SPACE_POSITIONS of NotePlopper.tsx. -/
def STAFF_SPACE_POSITIONS : List ℚ := [212.5, 287.5, 362.5, 437.5, 512.5, 587.5]

/-- LEDGER_SPACE_POSITIONS of NotePlopper.tsx. -/
def LEDGER_SPACE_POSITIONS : List ℚ := [212.5, 137.5, 62.5, 587.5, 662.5, 737.5]

/-- NOTE_HEAD_RADIUS of NotePlopper.tsx. -/
def NOTE_HEAD_RADIUS : ℚ := 24

/-- MIN_Y = 25 - 24/2 - 1 = 12. -/
def MIN_Y : ℚ := 25 - NOTE_HEAD_RADIUS / 2 - 1

/-- MAX_Y = 775 + 24/2 + 1 = 788. -/
def MAX_Y : ℚ := 775 + NOTE_HEAD_RADIUS / 2 + 1

/-- SNAP_POINTS: the concatenated position lists sorted ascending
(JS .sort((a, b) => a - b)). -/
def SNAP_POINTS : List ℚ :=
  List.insertionSort (fun a b => a ≤ b)
    (STAFF_LINE_POSITIONS ++ LEDGER_LINE_POSITIONS_ABOVE ++ LEDGER_LINE_POSITIONS_BELOW ++
      STAFF_SPACE_POSITIONS ++ LEDGER_SPACE_POSITIONS)

/-- MIN_X_FIRST_MEASURE of NotePlopper.tsx. -/
def MIN_X_FIRST_MEASURE : ℚ := 240

/-- MIN_X_OTHER_MEASURES of NotePlopper.tsx. -/
def MIN_X_OTHER_MEASURES : ℚ := 40

/-- getMinX of NotePlopper.tsx. -/
def getMinX (isFirstMeasure : Bool) : ℚ :=
  if isFirstMeasure then MIN_X_FIRST_MEASURE else MIN_X_OTHER_MEASURES

/-- getMaxX of NotePlopper.tsx (constant 760). -/
def getMaxX : ℚ := 760

/-- snapToStaff of NotePlopper.tsx: clamp y to [MIN_Y, MAX_Y], then reduce over
SNAP_POINTS keeping the strictly closer point.  The nil branch is unreachable:
SNAP_POINTS is a fixed non-empty list (JS Array.reduce without an initial value
throws on an empty array). -/
def snapToStaff (y : ℚ) : ℚ :=
  let clampedY := max MIN_Y (min y MAX_Y)
  match SNAP_POINTS with
  | [] => clampedY
  | first :: rest =>
    rest.foldl (fun prev curr => if |curr - clampedY| < |prev - clampedY| then curr else prev)
      first

/-- snapToGrid of NotePlopper.tsx: 15 divisions giving 16 snap positions,
rounding the relative position then clamping the index to [0, 15]. -/
def snapToGrid (x : ℚ) (isFirstMeasure : Bool) : ℚ :=
  let minX := getMinX isFirstMeasure
  let maxX := getMaxX
  let range := maxX - minX
  let divisions : ℚ := 15
  let stepSize := range / divisions
  let relativeX := x - minX
  let snapIndex := jsRound (relativeX / stepSize)
  let clampedIndex := max 0 (min snapIndex 15)
  minX + (clampedIndex : ℚ) * stepSize

/-! ### Helper lemmas -/

/-- The running sum of the stem-direction fold is the mapped sum. -/
lemma foldl_add_y (l : List PlacedNote) (c : ℚ) :
    l.foldl (fun sum note => sum + note.y) c = c + (l.map PlacedNote.y).sum := by
  induction l generalizing c with
  | nil => simp
  | cons n t ih => simp [ih, add_assoc]

/-- LINE_SPACING is 75 units. -/
lemma LINE_SPACING_eq : LINE_SPACING = 75 := rfl

/-- The above-staff ledger loop, run with enough fuel, is the map over exactly
the increments whose guard holds (the guard is antitone, so the first failure
ends the output). -/
lemma ledgerLoopAbove_eq :
    ∀ (n fuel : ℕ) (start bound : ℚ), n ≤ fuel →
      (∀ k : ℕ, k < n → bound ≤ start - LINE_SPACING * k) →
      ¬ bound ≤ start - LINE_SPACING * n →
      ledgerLoopAbove fuel start bound
        = (List.range n).map (fun k : ℕ => start - LINE_SPACING * (k : ℚ)) := by
  intro n
  induction n with
  | zero =>
    intro fuel start bound _ _ hstop
    have hstop' : ¬ bound ≤ start := by simpa using hstop
    cases fuel with
    | zero => simp [ledgerLoopAbove]
    | succ f => simp [ledgerLoopAbove, hstop']
  | succ n ih =>
    intro fuel start bound hfuel hcond hstop
    cases fuel with
    | zero => omega
    | succ f =>
      have h0 : bound ≤ start := by simpa using hcond 0 (Nat.succ_pos n)
      have hcond' : ∀ k : ℕ, k < n → bound ≤ start - LINE_SPACING - LINE_SPACING * k := by
        intro k hk
        have := hcond (k + 1) (by omega)
        push_cast at this ⊢
        rw [LINE_SPACING_eq] at this ⊢
        linarith
      have hstop' : ¬ bound ≤ start - LINE_SPACING - LINE_SPACING * n := by
        intro hc
        apply hstop
        push_cast at hc ⊢
        rw [LINE_SPACING_eq] at hc ⊢
        linarith
      simp only [ledgerLoopAbove]
      rw [if_pos h0, ih f (start - LINE_SPACING) bound (by omega) hcond' hstop']
      rw [List.range_succ_eq_map, List.map_cons, List.map_map]
      congr 1
      · norm_num
      · apply List.map_congr_left
        intro k _
        simp only [Function.comp_apply]
        push_cast
        ring

/-- The below-staff ledger loop, run with enough fuel, is the map over exactly
the increments whose guard holds. -/
lemma ledgerLoopBelow_eq :
    ∀ (n fuel : ℕ) (start bound : ℚ), n ≤ fuel →
      (∀ k : ℕ, k < n → start + LINE_SPACING * k ≤ bound) →
      ¬ start + LINE_SPACING * n ≤ bound →
      ledgerLoopBelow fuel start bound
        = (List.range n).map (fun k : ℕ => start + LINE_SPACING * (k : ℚ)) := by
  intro n
  induction n with
  | zero =>
    intro fuel start bound _ _ hstop
    have hstop' : ¬ start ≤ bound := by simpa using hstop
    cases fuel with
    | zero => simp [ledgerLoopBelow]
    | succ f => simp [ledgerLoopBelow, hstop']
  | succ n ih =>
    intro fuel start bound hfuel hcond hstop
    cases fuel with
    | zero => omega
    | succ f =>
      have h0 : start ≤ bound := by simpa using hcond 0 (Nat.succ_pos n)
      have hcond' : ∀ k : ℕ, k < n → start + LINE_SPACING + LINE_SPACING * k ≤ bound := by
        intro k hk
        have := hcond (k + 1) (by omega)
        push_cast at this ⊢
        rw [LINE_SPACING_eq] at this ⊢
        linarith
      have hstop' : ¬ start + LINE_SPACING + LINE_SPACING * n ≤ bound := by
        intro hc
        apply hstop
        push_cast at hc ⊢
        rw [LINE_SPACING_eq] at hc ⊢
        linarith
      simp only [ledgerLoopBelow]
      rw [if_pos h0, ih f (start + LINE_SPACING) bound (by omega) hcond' hstop']
      rw [List.range_succ_eq_map, List.map_cons, List.map_map]
      congr 1
      · norm_num
      · apply List.map_congr_left
        intro k _
        simp only [Function.comp_apply]
        push_cast
        ring

/-- The floor-based iteration count (⌊β⌋ + 1).toNat is exactly the number of
naturals k with (k : ℚ) ≤ β. -/
lemma loop_count_spec (β : ℚ) :
    (∀ k : ℕ, k < (⌊β⌋ + 1).toNat → (k : ℚ) ≤ β) ∧ β < (((⌊β⌋ + 1).toNat : ℕ) : ℚ) := by
  constructor
  · intro k hk
    have h2 : (k : ℤ) ≤ ⌊β⌋ := by omega
    exact_mod_cast Int.le_floor.mp h2
  · have h1 : (⌊β⌋ + 1 : ℤ) ≤ ((⌊β⌋ + 1).toNat : ℤ) := Int.self_le_toNat _
    have h2 := Int.lt_floor_add_one β
    have h3 : ((⌊β⌋ + 1 : ℤ) : ℚ) ≤ (((⌊β⌋ + 1).toNat : ℤ) : ℚ) := by exact_mod_cast h1
    push_cast at h3 ⊢
    linarith

/-! ### Claim theorems -/

/-- C10: calculateBeamGroupStemDirection applied to the empty list of notes
returns up rather than failing or propagating the undefined mean of zero
values. -/
theorem calculateBeamGroupStemDirection_empty :
    calculateBeamGroupStemDirection [] = StemDirection.up := rfl

/-- C7: calculateStemDirection returns down exactly when y < 400 and up exactly
when 400 ≤ y; in particular 250 resolves to down, 550 to up, 400 to up; and for
a non-empty group calculateBeamGroupStemDirection applies the same rule to the
arithmetic mean of the members' vertical coordinates. -/
theorem calculateStemDirection_spec :
    (∀ y : ℚ,
      (calculateStemDirection y = StemDirection.down ↔ y < 400) ∧
      (calculateStemDirection y = StemDirection.up ↔ 400 ≤ y)) ∧
    calculateStemDirection 250 = StemDirection.down ∧
    calculateStemDirection 550 = StemDirection.up ∧
    calculateStemDirection 400 = StemDirection.up ∧
    ∀ notes : List PlacedNote, notes ≠ [] →
      calculateBeamGroupStemDirection notes =
        calculateStemDirection ((notes.map PlacedNote.y).sum / (notes.length : ℚ)) := by
  refine ⟨fun y => ?_, ?_, ?_, ?_, fun notes h => ?_⟩
  · unfold calculateStemDirection MIDDLE_STAFF_LINE_Y
    split
    · simp_all
    · simp_all [not_lt.mp]
  · norm_num [calculateStemDirection, MIDDLE_STAFF_LINE_Y]
  · norm_num [calculateStemDirection, MIDDLE_STAFF_LINE_Y]
  · norm_num [calculateStemDirection, MIDDLE_STAFF_LINE_Y]
  · unfold calculateBeamGroupStemDirection
    rw [if_neg (by simpa using List.length_pos.mpr h |>.ne'), foldl_add_y, zero_add]

/-- C7 witness: a concrete one-note group. -/
theorem calculateStemDirection_spec_witness :
    (([⟨"a", 0, 500, "quarter"⟩] : List PlacedNote) ≠ []) ∧
    calculateBeamGroupStemDirection [⟨"a", 0, 500, "quarter"⟩] =
      calculateStemDirection
        ((([⟨"a", 0, 500, "quarter"⟩] : List PlacedNote).map PlacedNote.y).sum /
          (([⟨"a", 0, 500, "quarter"⟩] : List PlacedNote).length : ℚ)) :=
  ⟨by simp, calculateStemDirection_spec.2.2.2.2 [⟨"a", 0, 500, "quarter"⟩] (by simp)⟩

/-- C2 counterexample: for the unrecognized duration value "dotted" the
duration table misses and the code's fallback span is 3.75 grid steps, not 4,
so the expected distance used by the connector matcher is 3.75 times the
per-step width and differs from 4 times the per-step width. -/
theorem unknown_duration_counterexample :
    DURATION_IN_STEPS "dotted" = none ∧
    expectedDistance "dotted" 240 ≠ 4 * connectorStepSize 240 ∧
    expectedDistance "dotted" 240 = 3.75 * connectorStepSize 240 := by
  have hd : DURATION_IN_STEPS "dotted" = none := by simp [DURATION_IN_STEPS]
  refine ⟨hd, ?_, ?_⟩ <;>
    · unfold expectedDistance stepsInDuration
      rw [hd]
      norm_num [connectorStepSize]

/-- C2 amended: a duration value not present in the duration table defaults to
a grid-step span of 3.75, so for any unrecognized duration the expected
distance used by the connector matcher equals 3.75 times the measure's
per-step width. -/
theorem unknown_duration_fallback (d : String) (h : DURATION_IN_STEPS d = none)
    (firstX : ℚ) :
    expectedDistance d firstX = 3.75 * connectorStepSize firstX := by
  unfold expectedDistance stepsInDuration
  rw [h, Option.getD_none]

/-- C2 witness: the fallback theorem applied at the concrete key "dotted". -/
theorem unknown_duration_fallback_witness :
    DURATION_IN_STEPS "dotted" = none ∧
    expectedDistance "dotted" 240 = 3.75 * connectorStepSize 240 :=
  ⟨by simp [DURATION_IN_STEPS],
    unknown_duration_fallback "dotted" (by simp [DURATION_IN_STEPS]) 240⟩

/-- C3: snapToGrid always returns one of the 16 evenly spaced grid values
minX + k * (760 - minX) / 15 with k ≤ 15; every grid value is attained (as a
fixed point); inputs left of minX return minX and inputs right of maxX = 760
return 760. -/
theorem snapToGrid_spec (x : ℚ) (isFirstMeasure : Bool) :
    (∃ k : ℕ, k ≤ 15 ∧ snapToGrid x isFirstMeasure
        = getMinX isFirstMeasure + k * ((760 - getMinX isFirstMeasure) / 15)) ∧
    (∀ k : ℕ, k ≤ 15 →
      snapToGrid (getMinX isFirstMeasure + k * ((760 - getMinX isFirstMeasure) / 15))
          isFirstMeasure
        = getMinX isFirstMeasure + k * ((760 - getMinX isFirstMeasure) / 15)) ∧
    (x < getMinX isFirstMeasure → snapToGrid x isFirstMeasure = getMinX isFirstMeasure) ∧
    (760 < x → snapToGrid x isFirstMeasure = 760) ∧
    getMinX true = 240 ∧ getMinX false = 40 ∧ getMaxX = 760 := by
  have hm : getMinX isFirstMeasure = 240 ∨ getMinX isFirstMeasure = 40 := by
    cases isFirstMeasure <;>
      simp [getMinX, MIN_X_FIRST_MEASURE, MIN_X_OTHER_MEASURES]
  have hstep : (0 : ℚ) < (760 - getMinX isFirstMeasure) / 15 := by
    rcases hm with h | h <;> rw [h] <;> norm_num
  set m := getMinX isFirstMeasure with hmdef
  set s : ℚ := (760 - m) / 15 with hsdef
  have hsnap : ∀ z : ℚ, snapToGrid z isFirstMeasure
      = m + ((max 0 (min (jsRound ((z - m) / s)) 15) : ℤ) : ℚ) * s := by
    intro z
    simp only [snapToGrid, getMaxX, ← hmdef, ← hsdef]
  refine ⟨?_, fun k hk => ?_, fun hx => ?_, fun hx => ?_,
    by norm_num [getMinX, MIN_X_FIRST_MEASURE],
    by norm_num [getMinX, MIN_X_OTHER_MEASURES], rfl⟩
  · refine ⟨(max 0 (min (jsRound ((x - m) / s)) 15)).toNat, ?_, ?_⟩
    · have h15 : max 0 (min (jsRound ((x - m) / s)) 15) ≤ 15 :=
        max_le (by norm_num) (min_le_right _ _)
      omega
    · rw [hsnap x]
      have hnn : (0 : ℤ) ≤ max 0 (min (jsRound ((x - m) / s)) 15) := le_max_left _ _
      rw [show (((max 0 (min (jsRound ((x - m) / s)) 15)).toNat : ℚ))
          = ((max 0 (min (jsRound ((x - m) / s)) 15) : ℤ) : ℚ) from by
        rw [← Int.cast_natCast, Int.toNat_of_nonneg hnn]]
  · rw [hsnap]
    have harg : (m + (k : ℚ) * s - m) / s = (k : ℚ) := by
      field_simp
    rw [harg]
    have hround : jsRound (k : ℚ) = (k : ℤ) := by
      unfold jsRound
      rw [show ((k : ℚ) + 1 / 2) = 1 / 2 + ((k : ℤ) : ℚ) by push_cast; ring,
        Int.floor_add_int]
      norm_num
    rw [hround]
    have hmin : min ((k : ℤ)) 15 = (k : ℤ) := min_eq_left (by exact_mod_cast hk)
    have hmax : max 0 ((k : ℤ)) = (k : ℤ) := max_eq_right (Int.ofNat_nonneg k)
    rw [hmin, hmax]
    push_cast
    ring
  · rw [hsnap]
    have ht : (x - m) / s < 0 := div_neg_of_neg_of_pos (by linarith) hstep
    have hle : jsRound ((x - m) / s) ≤ 0 := by
      have : jsRound ((x - m) / s) < 1 := by
        unfold jsRound
        rw [Int.floor_lt]
        push_cast
        linarith
      omega
    have hmin : min (jsRound ((x - m) / s)) 15 = jsRound ((x - m) / s) :=
      min_eq_left (by omega)
    rw [hmin, max_eq_left hle]
    push_cast
    ring
  · rw [hsnap]
    have h15s : (15 : ℚ) * s = 760 - m := by
      rw [hsdef]
      field_simp
    have ht : (15 : ℚ) < (x - m) / s := by
      rw [lt_div_iff₀ hstep]
      linarith [h15s]
    have hge : (15 : ℤ) ≤ jsRound ((x - m) / s) := by
      unfold jsRound
      rw [Int.le_floor]
      push_cast
      linarith
    rw [min_eq_right hge, max_eq_right (by norm_num : (0 : ℤ) ≤ 15)]
    push_cast
    linarith [h15s]

/-- C3 witness: the clamping branches at concrete inputs. -/
theorem snapToGrid_spec_witness :
    ((1000 : ℚ) > 760 ∧ snapToGrid 1000 true = 760) ∧
    ((10 : ℚ) < getMinX true ∧ snapToGrid 10 true = getMinX true) ∧
    ((2 : ℕ) ≤ 15 ∧ snapToGrid (getMinX true + 2 * ((760 - getMinX true) / 15)) true
      = getMinX true + 2 * ((760 - getMinX true) / 15)) :=
  ⟨⟨by norm_num, (snapToGrid_spec 1000 true).2.2.2.1 (by norm_num)⟩,
    ⟨by norm_num [getMinX, MIN_X_FIRST_MEASURE],
      (snapToGrid_spec 10 true).2.2.1 (by norm_num [getMinX, MIN_X_FIRST_MEASURE])⟩,
    ⟨by norm_num, (snapToGrid_spec 0 true).2.1 2 (by norm_num)⟩⟩

/-- C8: for a note strictly above the top staff line (y < 250) or strictly
below the bottom line (y > 550), calculateLedgerLines emits one ledger-line
coordinate per 75-unit spacing increment stepping outward from the staff, for
as long as the candidate line lies no farther than half a spacing (37.5) beyond
the note; a note at y = 100 yields exactly [175, 100]; a note inside the staff
(250 ≤ y ≤ 550) yields the empty list. -/
theorem calculateLedgerLines_spec :
    (∀ y : ℚ, y < 250 → ∃ n : ℕ,
      calculateLedgerLines y = (List.range n).map (fun k : ℕ => 175 - 75 * (k : ℚ)) ∧
      (∀ k : ℕ, k < n → y - 75 / 2 ≤ 175 - 75 * (k : ℚ)) ∧
      ¬ y - 75 / 2 ≤ 175 - 75 * (n : ℚ)) ∧
    (∀ y : ℚ, 550 < y → ∃ n : ℕ,
      calculateLedgerLines y = (List.range n).map (fun k : ℕ => 625 + 75 * (k : ℚ)) ∧
      (∀ k : ℕ, k < n → 625 + 75 * (k : ℚ) ≤ y + 75 / 2) ∧
      ¬ 625 + 75 * (n : ℚ) ≤ y + 75 / 2) ∧
    (∀ y : ℚ, 250 ≤ y → y ≤ 550 → calculateLedgerLines y = []) ∧
    calculateLedgerLines 100 = [175, 100] := by
  have h75 : (0 : ℚ) < 75 := by norm_num
  refine ⟨fun y hy => ?_, fun y hy => ?_, fun y h1 h2 => ?_, ?_⟩
  · have hform : calculateLedgerLines y
        = ledgerLoopAbove (aboveFuel 175 (y - 75 / 2)) 175 (y - 75 / 2) := by
      unfold calculateLedgerLines TOP_STAFF_LINE BOTTOM_STAFF_LINE LINE_SPACING
      rw [if_pos (by linarith), if_neg (by linarith), List.append_nil]
      norm_num
    have hβ := loop_count_spec ((175 - (y - 75 / 2)) / LINE_SPACING)
    have hfuel : aboveFuel 175 (y - 75 / 2)
        = (⌊(175 - (y - 75 / 2)) / LINE_SPACING⌋ + 1).toNat := rfl
    refine ⟨aboveFuel 175 (y - 75 / 2), ?_, ?_, ?_⟩
    · rw [hform,
        ledgerLoopAbove_eq (aboveFuel 175 (y - 75 / 2)) (aboveFuel 175 (y - 75 / 2))
          175 (y - 75 / 2) le_rfl ?_ ?_]
      · exact List.map_congr_left fun k _ => by rw [LINE_SPACING_eq]
      · intro k hk
        rw [hfuel] at hk
        have := hβ.1 k hk
        rw [LINE_SPACING_eq] at this ⊢
        have := (le_div_iff₀ h75).mp this
        linarith
      · rw [hfuel, LINE_SPACING_eq]
        intro hc
        have := hβ.2
        rw [LINE_SPACING_eq] at this
        have := (div_lt_iff₀ h75).mp this
        linarith
    · intro k hk
      rw [hfuel] at hk
      have := hβ.1 k hk
      rw [LINE_SPACING_eq] at this
      have := (le_div_iff₀ h75).mp this
      linarith
    · rw [hfuel, LINE_SPACING_eq]
      intro hc
      have := hβ.2
      rw [LINE_SPACING_eq] at this
      have := (div_lt_iff₀ h75).mp this
      linarith
  · have hform : calculateLedgerLines y
        = ledgerLoopBelow (belowFuel 625 (y + 75 / 2)) 625 (y + 75 / 2) := by
      unfold calculateLedgerLines TOP_STAFF_LINE BOTTOM_STAFF_LINE LINE_SPACING
      rw [if_neg (by linarith), if_pos (by linarith), List.nil_append]
      norm_num
    have hβ := loop_count_spec (((y + 75 / 2) - 625) / LINE_SPACING)
    have hfuel : belowFuel 625 (y + 75 / 2)
        = (⌊((y + 75 / 2) - 625) / LINE_SPACING⌋ + 1).toNat := rfl
    refine ⟨belowFuel 625 (y + 75 / 2), ?_, ?_, ?_⟩
    · rw [hform,
        ledgerLoopBelow_eq (belowFuel 625 (y + 75 / 2)) (belowFuel 625 (y + 75 / 2))
          625 (y + 75 / 2) le_rfl ?_ ?_]
      · exact List.map_congr_left fun k _ => by rw [LINE_SPACING_eq]
      · intro k hk
        rw [hfuel] at hk
        have := hβ.1 k hk
        rw [LINE_SPACING_eq] at this ⊢
        have := (le_div_iff₀ h75).mp this
        linarith
      · rw [hfuel, LINE_SPACING_eq]
        intro hc
        have := hβ.2
        rw [LINE_SPACING_eq] at this
        have := (div_lt_iff₀ h75).mp this
        linarith
    · intro k hk
      rw [hfuel] at hk
      have := hβ.1 k hk
      rw [LINE_SPACING_eq] at this
      have := (le_div_iff₀ h75).mp this
      linarith
    · rw [hfuel, LINE_SPACING_eq]
      intro hc
      have := hβ.2
      rw [LINE_SPACING_eq] at this
      have := (div_lt_iff₀ h75).mp this
      linarith
  · unfold calculateLedgerLines TOP_STAFF_LINE BOTTOM_STAFF_LINE
    rw [if_neg (by linarith), if_neg (by linarith), List.append_nil]
  · have hf2 : aboveFuel (TOP_STAFF_LINE - LINE_SPACING) ((100 : ℚ) - LINE_SPACING / 2) = 2 := by
      unfold aboveFuel TOP_STAFF_LINE
      rw [LINE_SPACING_eq,
        show ((250 : ℚ) - 75 - (100 - 75 / 2)) / 75 = 3 / 2 from by norm_num,
        show ⌊(3 : ℚ) / 2⌋ = 1 from by norm_num]
      rfl
    unfold calculateLedgerLines
    rw [if_pos (by norm_num [TOP_STAFF_LINE]), if_neg (by norm_num [BOTTOM_STAFF_LINE]),
      List.append_nil, hf2]
    norm_num [ledgerLoopAbove, TOP_STAFF_LINE, LINE_SPACING_eq]

/-- C8 witness: the above-staff branch applied at y = 100. -/
theorem calculateLedgerLines_spec_witness :
    (100 : ℚ) < 250 ∧ ∃ n : ℕ,
      calculateLedgerLines 100 = (List.range n).map (fun k : ℕ => 175 - 75 * (k : ℚ)) ∧
      (∀ k : ℕ, k < n → (100 : ℚ) - 75 / 2 ≤ 175 - 75 * (k : ℚ)) ∧
      ¬ (100 : ℚ) - 75 / 2 ≤ 175 - 75 * (n : ℚ) :=
  ⟨by norm_num, calculateLedgerLines_spec.1 100 (by norm_num)⟩

/-- SNAP_POINTS evaluates to the sorted 23-element ladder (212.5 and 587.5
occur twice, once as a staff-space and once as a ledger-space position). -/
lemma SNAP_POINTS_eq : SNAP_POINTS =
    [25, 125/2, 100, 275/2, 175, 425/2, 425/2, 250, 575/2, 325, 725/2, 400,
      875/2, 475, 1025/2, 550, 1175/2, 1175/2, 625, 1325/2, 700, 1475/2, 775] := by
  norm_num [SNAP_POINTS, STAFF_LINE_POSITIONS, LEDGER_LINE_POSITIONS_ABOVE,
    LEDGER_LINE_POSITIONS_BELOW, STAFF_SPACE_POSITIONS, LEDGER_SPACE_POSITIONS,
    LINE_SPACING, List.insertionSort, List.orderedInsert]

/-- snapToStaff written as the fold over the ladder with head as initial
accumulator (the JS reduce without initial value). -/
lemma snapToStaff_eq (y : ℚ) :
    snapToStaff y = SNAP_POINTS.tail.foldl
      (fun prev curr =>
        if |curr - max MIN_Y (min y MAX_Y)| < |prev - max MIN_Y (min y MAX_Y)| then curr
        else prev)
      SNAP_POINTS.headI := by
  unfold snapToStaff
  rw [SNAP_POINTS_eq]
  rfl

/-- The closest-point fold always returns the accumulator or a list element. -/
lemma foldl_choose_mem (y : ℚ) :
    ∀ (l : List ℚ) (a : ℚ),
      l.foldl (fun prev curr => if |curr - y| < |prev - y| then curr else prev) a ∈ a :: l := by
  intro l
  induction l with
  | nil => intro a; simp
  | cons c t ih =>
    intro a
    simp only [List.foldl_cons]
    rcases List.mem_cons.mp (ih (if |c - y| < |a - y| then c else a)) with h | h
    · rw [h]
      split
      · simp
      · simp
    · exact List.mem_cons_of_mem a (List.mem_cons_of_mem c h)

/-- The closest-point fold result is at least as close to y as the accumulator
and as every list element. -/
lemma foldl_choose_le (y : ℚ) :
    ∀ (l : List ℚ) (a : ℚ),
      |l.foldl (fun prev curr => if |curr - y| < |prev - y| then curr else prev) a - y|
          ≤ |a - y| ∧
      ∀ e ∈ l,
        |l.foldl (fun prev curr => if |curr - y| < |prev - y| then curr else prev) a - y|
          ≤ |e - y| := by
  intro l
  induction l with
  | nil => intro a; exact ⟨le_refl _, by simp⟩
  | cons c t ih =>
    intro a
    obtain ⟨h1, h2⟩ := ih (if |c - y| < |a - y| then c else a)
    have hb1 : |(if |c - y| < |a - y| then c else a) - y| ≤ |a - y| := by
      split
      · exact le_of_lt (by assumption)
      · exact le_refl _
    have hb2 : |(if |c - y| < |a - y| then c else a) - y| ≤ |c - y| := by
      split
      · exact le_refl _
      · exact le_of_not_lt (by assumption)
    simp only [List.foldl_cons]
    refine ⟨h1.trans hb1, fun e he => ?_⟩
    rcases List.mem_cons.mp he with rfl | he'
    · exact h1.trans hb2
    · exact h2 e he'

/-- C9: snapToStaff always returns a member of the snap-point ladder; every
ladder member lies within the clamp bounds MIN_Y = 12 and MAX_Y = 788; and
snapToStaff is idempotent on ladder members. -/
theorem snapToStaff_spec :
    (∀ y : ℚ, snapToStaff y ∈ SNAP_POINTS) ∧
    (∀ p ∈ SNAP_POINTS, MIN_Y ≤ p ∧ p ≤ MAX_Y) ∧
    (∀ y ∈ SNAP_POINTS, snapToStaff y = y) ∧
    MIN_Y = 12 ∧ MAX_Y = 788 := by
  have hcons : SNAP_POINTS = SNAP_POINTS.headI :: SNAP_POINTS.tail := by
    rw [SNAP_POINTS_eq]
    rfl
  have hb : ∀ p ∈ SNAP_POINTS, MIN_Y ≤ p ∧ p ≤ MAX_Y := by
    intro p hp
    rw [SNAP_POINTS_eq] at hp
    fin_cases hp <;> norm_num [MIN_Y, MAX_Y, NOTE_HEAD_RADIUS]
  refine ⟨fun y => ?_, hb, fun y hy => ?_,
    by norm_num [MIN_Y, NOTE_HEAD_RADIUS], by norm_num [MAX_Y, NOTE_HEAD_RADIUS]⟩
  · rw [snapToStaff_eq y, hcons]
    exact foldl_choose_mem (max MIN_Y (min y MAX_Y)) SNAP_POINTS.tail SNAP_POINTS.headI
  · obtain ⟨hy1, hy2⟩ := hb y hy
    have hclamp : max MIN_Y (min y MAX_Y) = y := by
      rw [min_eq_left hy2, max_eq_right hy1]
    rw [snapToStaff_eq y, hclamp]
    obtain ⟨h1, h2⟩ := foldl_choose_le y SNAP_POINTS.tail SNAP_POINTS.headI
    have h0 : |SNAP_POINTS.tail.foldl
        (fun prev curr => if |curr - y| < |prev - y| then curr else prev)
        SNAP_POINTS.headI - y| ≤ 0 := by
      rw [hcons] at hy
      rcases List.mem_cons.mp hy with rfl | hy'
      · simpa using h1
      · simpa using h2 y hy'
    have := abs_eq_zero.mp (le_antisymm h0 (abs_nonneg _))
    linarith [this]

/-- C9 witness: the ladder member 400 is returned unchanged and is in bounds. -/
theorem snapToStaff_spec_witness :
    ((400 : ℚ) ∈ SNAP_POINTS ∧ snapToStaff 400 = 400) ∧
    (MIN_Y ≤ (400 : ℚ) ∧ (400 : ℚ) ≤ MAX_Y) :=
  ⟨⟨by norm_num [SNAP_POINTS_eq], snapToStaff_spec.2.2.1 400 (by norm_num [SNAP_POINTS_eq])⟩,
    snapToStaff_spec.2.1 400 (by norm_num [SNAP_POINTS_eq])⟩

/-! ### Sorting helpers -/

/-- sortByX is a permutation of its input. -/
lemma sortByX_perm (l : List PlacedNote) : (sortByX l).Perm l :=
  List.perm_insertionSort byX l

/-- sortByX is sorted by x. -/
lemma sortByX_pairwise (l : List PlacedNote) : List.Pairwise byX (sortByX l) :=
  List.sorted_insertionSort byX l

/-- A permutation that is sorted (weakly) of a strictly-by-x sorted list is that
list: strict sortedness pins the order. -/
lemma eq_of_perm_of_sorted_strict :
    ∀ (l₂ l₁ : List PlacedNote), l₁.Perm l₂ → List.Pairwise byX l₁ →
      List.Pairwise (fun a b => a.x < b.x) l₂ → l₁ = l₂ := by
  intro l₂
  induction l₂ with
  | nil => intro l₁ hp _ _; exact hp.eq_nil
  | cons c t ih =>
    intro l₁ hp h1 h2
    cases l₁ with
    | nil =>
      have := hp.length_eq
      simp at this
    | cons a s =>
      have hac : a = c := by
        by_contra hne
        have ha : a ∈ c :: t := hp.mem_iff.mp (List.mem_cons_self a s)
        have hc : c ∈ a :: s := hp.mem_iff.mpr (List.mem_cons_self c t)
        rcases List.mem_cons.mp ha with h | ha'
        · exact hne h
        · rcases List.mem_cons.mp hc with h | hc'
          · exact hne h.symm
          · have h3 : c.x < a.x := (List.pairwise_cons.mp h2).1 a ha'
            have h4 : a.x ≤ c.x := (List.pairwise_cons.mp h1).1 c hc'
            exact absurd h3 (not_lt.mpr h4)
      subst hac
      rw [ih s hp.cons_inv (List.pairwise_cons.mp h1).2 (List.pairwise_cons.mp h2).2]

/-- Computing sortByX by exhibiting a strictly sorted rearrangement. -/
lemma sortByX_eq_of_sorted (l L : List PlacedNote) (h : l.Perm L)
    (hL : List.Pairwise (fun a b => a.x < b.x) L) : sortByX l = L :=
  eq_of_perm_of_sorted_strict L (sortByX l) ((sortByX_perm l).trans h)
    (sortByX_pairwise l) hL

/-- C1 amended: calculateDurationConnectors sorts the merged list by horizontal
coordinate and compares each note after the first against every earlier note in
that order (all pairs, not only the immediate left neighbor): a connector is in
the output exactly when some earlier note passes the match check against a
later note. -/
theorem calculateDurationConnectors_allpairs (placed : List PlacedNote)
    (ghost : Option GhostNote) (c : DurationConnector) :
    (sortByX (mergedNotes placed ghost)).Perm (mergedNotes placed ghost) ∧
    List.Pairwise byX (sortByX (mergedNotes placed ghost)) ∧
    (c ∈ calculateDurationConnectors placed ghost ↔
      ∃ j, j < (sortByX (mergedNotes placed ghost)).length ∧
        ∃ p ∈ (sortByX (mergedNotes placed ghost)).take j,
          connectorCheck (sortByX (mergedNotes placed ghost)).headI.x p
            ((sortByX (mergedNotes placed ghost)).getD j default) = some c) := by
  refine ⟨sortByX_perm _, sortByX_pairwise _, ?_⟩
  show c ∈ calculateDurationConnectors placed ghost ↔ _
  by_cases hemp : mergedNotes placed ghost = []
  · unfold calculateDurationConnectors
    rw [show placed ++ (ghost.map GhostNote.toPlaced).toList = mergedNotes placed ghost
      from rfl, hemp]
    simp [sortByX, List.insertionSort]
  · unfold calculateDurationConnectors
    rw [show placed ++ (ghost.map GhostNote.toPlaced).toList = mergedNotes placed ghost
      from rfl]
    rw [if_neg (by simpa [List.isEmpty_iff] using hemp)]
    simp only [List.mem_flatMap, List.mem_range, List.mem_filterMap]

/-- Unfolding calculateDurationConnectors in the non-empty case. -/
lemma calculateDurationConnectors_eq (placed : List PlacedNote) (ghost : Option GhostNote)
    (h : mergedNotes placed ghost ≠ []) :
    calculateDurationConnectors placed ghost
      = (List.range (sortByX (mergedNotes placed ghost)).length).flatMap fun index =>
          ((sortByX (mergedNotes placed ghost)).take index).filterMap fun previousNote =>
            connectorCheck (sortByX (mergedNotes placed ghost)).headI.x previousNote
              ((sortByX (mergedNotes placed ghost)).getD index default) := by
  unfold calculateDurationConnectors
  rw [show placed ++ (ghost.map GhostNote.toPlaced).toList = mergedNotes placed ghost
    from rfl]
  rw [if_neg (by simpa [List.isEmpty_iff] using h)]

/-- Evaluation of the quarter-duration expected distance at firstX = 240. -/
lemma expectedDistance_quarter_240 : expectedDistance "quarter" 240 = 416 / 3 := by
  simp [expectedDistance, stepsInDuration, DURATION_IN_STEPS, connectorStepSize]
  norm_num

/-- Evaluation of the eighth-duration expected distance at firstX = 240. -/
lemma expectedDistance_eighth_240 : expectedDistance "eighth" 240 = 208 / 3 := by
  simp [expectedDistance, stepsInDuration, DURATION_IN_STEPS, connectorStepSize]
  norm_num

/-- Rounding 208/3 (two first-measure grid steps) to tenths. -/
lemma round10_eval_208_3 : round10 (208 / 3 : ℚ) = 693 / 10 := by
  unfold round10 jsRound
  rw [show (208 / 3 : ℚ) * 10 + 1 / 2 = 4163 / 6 from by norm_num,
    show ⌊(4163 / 6 : ℚ)⌋ = 693 from by norm_num]
  norm_num

/-- Rounding 416/3 (four first-measure grid steps) to tenths. -/
lemma round10_eval_416_3 : round10 (416 / 3 : ℚ) = 1387 / 10 := by
  unfold round10 jsRound
  rw [show (416 / 3 : ℚ) * 10 + 1 / 2 = 8323 / 6 from by norm_num,
    show ⌊(8323 / 6 : ℚ)⌋ = 1387 from by norm_num]
  norm_num

/-- The quarter-duration connector color. -/
lemma DURATION_COLORS_quarter : DURATION_COLORS "quarter" = some "#F5A623" := by
  simp [DURATION_COLORS]

/-- The eighth-duration connector color. -/
lemma DURATION_COLORS_eighth : DURATION_COLORS "eighth" = some "#FF6B35" := by
  simp [DURATION_COLORS]

/-- C1 counterexample: three notes in the first measure (quarter at x = 240,
eighth two grid steps later, quarter four grid steps after the first): the
third note matches both the non-adjacent first note (distance = the quarter
span) and its immediate neighbor (distance = the eighth span), so the output
holds two connectors at the third note's x — the non-adjacent pair does
produce a connector and a note can gain more than one connector from its left
side, refuting the chain-only claim. -/
theorem connectors_allpairs_counterexample :
    calculateDurationConnectors
        [⟨"a", 240, 250, "quarter"⟩, ⟨"b", 928 / 3, 325, "eighth"⟩,
          ⟨"c", 1136 / 3, 400, "quarter"⟩] none
      = [⟨1136 / 3, 250, 400, "#F5A623"⟩, ⟨1136 / 3, 325, 400, "#FF6B35"⟩] ∧
    (calculateDurationConnectors
        [⟨"a", 240, 250, "quarter"⟩, ⟨"b", 928 / 3, 325, "eighth"⟩,
          ⟨"c", 1136 / 3, 400, "quarter"⟩] none).map DurationConnector.x
      = [1136 / 3, 1136 / 3] := by
  have hmerged : mergedNotes
      [⟨"a", 240, 250, "quarter"⟩, ⟨"b", 928 / 3, 325, "eighth"⟩,
        ⟨"c", 1136 / 3, 400, "quarter"⟩] none
      = [⟨"a", 240, 250, "quarter"⟩, ⟨"b", 928 / 3, 325, "eighth"⟩,
        ⟨"c", 1136 / 3, 400, "quarter"⟩] := by
    simp [mergedNotes]
  have hsort : sortByX
      [⟨"a", 240, 250, "quarter"⟩, ⟨"b", 928 / 3, 325, "eighth"⟩,
        ⟨"c", 1136 / 3, 400, "quarter"⟩]
      = [⟨"a", 240, 250, "quarter"⟩, ⟨"b", 928 / 3, 325, "eighth"⟩,
        ⟨"c", 1136 / 3, 400, "quarter"⟩] := by
    apply sortByX_eq_of_sorted _ _ (List.Perm.refl _)
    norm_num [List.pairwise_cons]
  have c1 : connectorCheck 240 ⟨"a", 240, 250, "quarter"⟩ ⟨"b", 928 / 3, 325, "eighth"⟩
      = none := by
    unfold connectorCheck
    rw [if_neg (by norm_num), show (⟨"b", 928 / 3, 325, "eighth"⟩ : PlacedNote).x
      - (⟨"a", 240, 250, "quarter"⟩ : PlacedNote).x = 208 / 3 from by norm_num]
    rw [show (⟨"a", 240, 250, "quarter"⟩ : PlacedNote).duration = "quarter" from rfl,
      expectedDistance_quarter_240]
    simp only [round10_eval_208_3, round10_eval_416_3]
    norm_num
  have c2 : connectorCheck 240 ⟨"a", 240, 250, "quarter"⟩ ⟨"c", 1136 / 3, 400, "quarter"⟩
      = some ⟨1136 / 3, 250, 400, "#F5A623"⟩ := by
    unfold connectorCheck
    rw [if_neg (by norm_num), show (⟨"c", 1136 / 3, 400, "quarter"⟩ : PlacedNote).x
      - (⟨"a", 240, 250, "quarter"⟩ : PlacedNote).x = 416 / 3 from by norm_num]
    rw [show (⟨"a", 240, 250, "quarter"⟩ : PlacedNote).duration = "quarter" from rfl,
      expectedDistance_quarter_240, if_pos rfl, DURATION_COLORS_quarter]
    rfl
  have c3 : connectorCheck 240 ⟨"b", 928 / 3, 325, "eighth"⟩ ⟨"c", 1136 / 3, 400, "quarter"⟩
      = some ⟨1136 / 3, 325, 400, "#FF6B35"⟩ := by
    unfold connectorCheck
    rw [if_neg (by norm_num), show (⟨"c", 1136 / 3, 400, "quarter"⟩ : PlacedNote).x
      - (⟨"b", 928 / 3, 325, "eighth"⟩ : PlacedNote).x = 208 / 3 from by norm_num]
    rw [show (⟨"b", 928 / 3, 325, "eighth"⟩ : PlacedNote).duration = "eighth" from rfl,
      expectedDistance_eighth_240, if_pos rfl, DURATION_COLORS_eighth]
    rfl
  have hmain : calculateDurationConnectors
      [⟨"a", 240, 250, "quarter"⟩, ⟨"b", 928 / 3, 325, "eighth"⟩,
        ⟨"c", 1136 / 3, 400, "quarter"⟩] none
      = [⟨1136 / 3, 250, 400, "#F5A623"⟩, ⟨1136 / 3, 325, 400, "#FF6B35"⟩] := by
    rw [calculateDurationConnectors_eq _ _ (by rw [hmerged]; simp), hmerged, hsort]
    simp [List.range_succ, c1, c2, c3]
  exact ⟨hmain, by rw [hmain]; rfl⟩

/-- Evaluating the connector matcher on a two-note list already in x order:
only the pair (first, second) is checked. -/
lemma connectors_pair_eval (n1 n2 : PlacedNote) (hx : n1.x < n2.x) :
    calculateDurationConnectors [n1, n2] none = (connectorCheck n1.x n1 n2).toList := by
  have hmerged : mergedNotes [n1, n2] none = [n1, n2] := by simp [mergedNotes]
  have hsort : sortByX [n1, n2] = [n1, n2] :=
    sortByX_eq_of_sorted _ _ (List.Perm.refl _) (by simp [List.pairwise_cons, hx])
  rw [calculateDurationConnectors_eq _ _ (by rw [hmerged]; simp), hmerged, hsort]
  cases h : connectorCheck n1.x n1 n2 <;> simp [List.range_succ, h]

/-- connectorStepSize at the first measure's origin. -/
lemma connectorStepSize_240 : connectorStepSize 240 = 104 / 3 := by
  simp [connectorStepSize]
  norm_num

/-- connectorStepSize when the leftmost note is not exactly at 240: the code
falls back to the non-first-measure span. -/
lemma connectorStepSize_nonfirst (fx : ℚ) (h : fx ≠ 240) : connectorStepSize fx = 48 := by
  simp [connectorStepSize, h]
  norm_num

/-- Rounding 192 (a quarter span at the 48-unit step width) to tenths. -/
lemma round10_eval_192 : round10 (192 : ℚ) = 192 := by
  unfold round10 jsRound
  rw [show (192 : ℚ) * 10 + 1 / 2 = 3841 / 2 from by norm_num,
    show ⌊(3841 / 2 : ℚ)⌋ = 1920 from by norm_num]
  norm_num

/-- Rounding 520/3 (five first-measure grid steps) to tenths. -/
lemma round10_eval_520_3 : round10 (520 / 3 : ℚ) = 1733 / 10 := by
  unfold round10 jsRound
  rw [show (520 / 3 : ℚ) * 10 + 1 / 2 = 10403 / 6 from by norm_num,
    show ⌊(10403 / 6 : ℚ)⌋ = 1733 from by norm_num]
  norm_num

/-- C4 counterexample: two quarter notes on the first measure's grid (left note
at grid index 1, x = 824/3), at different vertical coordinates, exactly four
grid steps apart — yet zero connectors are produced, because the leftmost x is
not exactly 240 and the matcher derives the per-step width from the
non-first-measure span (48) instead. -/
theorem quarter_pair_offset_counterexample :
    calculateDurationConnectors
        [⟨"a", 824 / 3, 250, "quarter"⟩, ⟨"b", 1240 / 3, 325, "quarter"⟩] none = [] ∧
    (824 / 3 : ℚ) = 240 + 1 * ((760 - 240) / 15) ∧
    (1240 / 3 : ℚ) - 824 / 3 = 4 * ((760 - 240) / 15) ∧
    (250 : ℚ) ≠ 325 := by
  refine ⟨?_, by norm_num, by norm_num, by norm_num⟩
  rw [connectors_pair_eval _ _ (by norm_num)]
  have hcheck : connectorCheck (824 / 3) ⟨"a", 824 / 3, 250, "quarter"⟩
      ⟨"b", 1240 / 3, 325, "quarter"⟩ = none := by
    unfold connectorCheck
    rw [if_neg (by norm_num), show (⟨"b", 1240 / 3, 325, "quarter"⟩ : PlacedNote).x
      - (⟨"a", 824 / 3, 250, "quarter"⟩ : PlacedNote).x = 416 / 3 from by norm_num]
    rw [show (⟨"a", 824 / 3, 250, "quarter"⟩ : PlacedNote).duration = "quarter" from rfl]
    rw [show expectedDistance "quarter" (824 / 3) = 192 from by
      rw [expectedDistance, connectorStepSize_nonfirst (824 / 3) (by norm_num)]
      simp [stepsInDuration, DURATION_IN_STEPS]
      norm_num]
    simp only [round10_eval_416_3, round10_eval_192]
    norm_num
  rw [show (⟨"a", 824 / 3, 250, "quarter"⟩ : PlacedNote).x = 824 / 3 from rfl, hcheck]
  rfl

/-- C4 amended: the matcher behaves as the claim states only when the left
quarter note sits at the first measure's origin x = 240 (the code detects the
first measure by firstX === 240): then a pair four grid steps apart at
different vertical coordinates yields exactly one connector, the same pair at
one vertical coordinate yields zero, and a pair five grid steps apart yields
zero. -/
theorem quarter_pair_origin_spec (id1 id2 : String) (y1 y2 : ℚ) (hne : y1 ≠ y2) :
    calculateDurationConnectors
        [⟨id1, 240, y1, "quarter"⟩,
          ⟨id2, 240 + 4 * ((760 - 240) / 15), y2, "quarter"⟩] none
      = [⟨240 + 4 * ((760 - 240) / 15), y1, y2, "#F5A623"⟩] ∧
    calculateDurationConnectors
        [⟨id1, 240, y1, "quarter"⟩,
          ⟨id2, 240 + 4 * ((760 - 240) / 15), y1, "quarter"⟩] none
      = [] ∧
    calculateDurationConnectors
        [⟨id1, 240, y1, "quarter"⟩,
          ⟨id2, 240 + 5 * ((760 - 240) / 15), y2, "quarter"⟩] none
      = [] := by
  refine ⟨?_, ?_, ?_⟩
  · rw [connectors_pair_eval _ _ (by norm_num)]
    have hcheck : connectorCheck (240 : ℚ) ⟨id1, 240, y1, "quarter"⟩
        ⟨id2, 240 + 4 * ((760 - 240) / 15), y2, "quarter"⟩
        = some ⟨240 + 4 * ((760 - 240) / 15), y1, y2, "#F5A623"⟩ := by
      unfold connectorCheck
      rw [if_neg (show ¬ (y2 = y1) from fun hh => hne hh.symm),
        show (⟨id2, 240 + 4 * ((760 - 240) / 15), y2, "quarter"⟩ : PlacedNote).x
          - (⟨id1, 240, y1, "quarter"⟩ : PlacedNote).x = 416 / 3 from by norm_num]
      rw [show (⟨id1, 240, y1, "quarter"⟩ : PlacedNote).duration = "quarter" from rfl,
        expectedDistance_quarter_240, if_pos rfl, DURATION_COLORS_quarter]
      rfl
    rw [show (⟨id1, 240, y1, "quarter"⟩ : PlacedNote).x = (240 : ℚ) from rfl, hcheck]
    rfl
  · rw [connectors_pair_eval _ _ (by norm_num)]
    have hcheck : connectorCheck (240 : ℚ) ⟨id1, 240, y1, "quarter"⟩
        ⟨id2, 240 + 4 * ((760 - 240) / 15), y1, "quarter"⟩ = none := by
      unfold connectorCheck
      rw [if_pos rfl]
    rw [show (⟨id1, 240, y1, "quarter"⟩ : PlacedNote).x = (240 : ℚ) from rfl, hcheck]
    rfl
  · rw [connectors_pair_eval _ _ (by norm_num)]
    have hcheck : connectorCheck (240 : ℚ) ⟨id1, 240, y1, "quarter"⟩
        ⟨id2, 240 + 5 * ((760 - 240) / 15), y2, "quarter"⟩ = none := by
      unfold connectorCheck
      rw [if_neg (show ¬ (y2 = y1) from fun hh => hne hh.symm),
        show (⟨id2, 240 + 5 * ((760 - 240) / 15), y2, "quarter"⟩ : PlacedNote).x
          - (⟨id1, 240, y1, "quarter"⟩ : PlacedNote).x = 520 / 3 from by norm_num]
      rw [show (⟨id1, 240, y1, "quarter"⟩ : PlacedNote).duration = "quarter" from rfl,
        expectedDistance_quarter_240]
      simp only [round10_eval_520_3, round10_eval_416_3]
      norm_num
    rw [show (⟨id1, 240, y1, "quarter"⟩ : PlacedNote).x = (240 : ℚ) from rfl, hcheck]
    rfl

/-- C4 witness: the origin pair theorem at concrete vertical coordinates. -/
theorem quarter_pair_origin_spec_witness :
    (250 : ℚ) ≠ 325 ∧
    calculateDurationConnectors
        [⟨"a", 240, 250, "quarter"⟩,
          ⟨"b", 240 + 4 * ((760 - 240) / 15), 325, "quarter"⟩] none
      = [⟨240 + 4 * ((760 - 240) / 15), 250, 325, "#F5A623"⟩] :=
  ⟨by norm_num, (quarter_pair_origin_spec "a" "b" 250 325 (by norm_num)).1⟩

/-! ### groupStep case lemmas -/

/-- A beamable note starts a new run when the current run is empty. -/
lemma groupStep_start (gs : List (List PlacedNote)) (note : PlacedNote)
    (h : note.duration = "eighth" ∨ note.duration = "sixteenth") :
    groupStep (gs, []) note = (gs, [note]) := by
  rcases h with h | h <;> simp [groupStep, h]

/-- A beamable note within MAX_BEAM_DISTANCE of the run's last note joins the
run. -/
lemma groupStep_near (gs : List (List PlacedNote)) (cg : List PlacedNote)
    (note : PlacedNote) (hne : cg ≠ [])
    (h : note.duration = "eighth" ∨ note.duration = "sixteenth")
    (hdist : note.x - (cg.getLast?.getD default).x ≤ MAX_BEAM_DISTANCE) :
    groupStep (gs, cg) note = (gs, cg ++ [note]) := by
  rcases h with h | h <;> simp [groupStep, h, hdist, List.length_eq_zero, hne]

/-- A beamable note beyond MAX_BEAM_DISTANCE closes a run of length ≥ 2 and
starts a new run. -/
lemma groupStep_far_push (gs : List (List PlacedNote)) (cg : List PlacedNote)
    (note : PlacedNote) (hlen : 2 ≤ cg.length)
    (h : note.duration = "eighth" ∨ note.duration = "sixteenth")
    (hdist : ¬ note.x - (cg.getLast?.getD default).x ≤ MAX_BEAM_DISTANCE) :
    groupStep (gs, cg) note = (gs ++ [cg], [note]) := by
  have hne : cg ≠ [] := by intro e; subst e; simp at hlen
  rcases h with h | h <;>
    simp [groupStep, h, hdist, hlen, List.length_eq_zero, hne]

/-- A beamable note beyond MAX_BEAM_DISTANCE drops a run of length < 2 and
starts a new run. -/
lemma groupStep_far_drop (gs : List (List PlacedNote)) (cg : List PlacedNote)
    (note : PlacedNote) (hlen : ¬ 2 ≤ cg.length) (hne : cg ≠ [])
    (h : note.duration = "eighth" ∨ note.duration = "sixteenth")
    (hdist : ¬ note.x - (cg.getLast?.getD default).x ≤ MAX_BEAM_DISTANCE) :
    groupStep (gs, cg) note = (gs, [note]) := by
  rcases h with h | h <;>
    simp [groupStep, h, hdist, hlen, List.length_eq_zero, hne]

/-- C6 counterexample, in the first measure: four sixteenth notes at grid
positions 0, 1, 2, 3 with the third then moved to the non-adjacent grid
position 5.  The re-derived beam groups consist of one group holding all four
notes: the first-measure grid step is 520/15 ≈ 34.67, so a two-step gap
(≈ 69.33) is still within the 70-unit maximum beam distance and the group spans
the vacated position 240 + 2 steps. -/
theorem beam_gap_first_measure_counterexample :
    groupNotesForBeaming
        [⟨"a", 240, 250, "sixteenth"⟩, ⟨"b", 824 / 3, 300, "sixteenth"⟩,
          ⟨"c", 1240 / 3, 350, "sixteenth"⟩, ⟨"d", 344, 450, "sixteenth"⟩]
      = [[⟨"a", 240, 250, "sixteenth"⟩, ⟨"b", 824 / 3, 300, "sixteenth"⟩,
          ⟨"d", 344, 450, "sixteenth"⟩, ⟨"c", 1240 / 3, 350, "sixteenth"⟩]] ∧
    (240 : ℚ) < 240 + 2 * ((760 - 240) / 15) ∧
    (240 + 2 * ((760 - 240) / 15) : ℚ) < 344 ∧
    (824 / 3 : ℚ) = 240 + 1 * ((760 - 240) / 15) ∧
    (344 : ℚ) = 240 + 3 * ((760 - 240) / 15) ∧
    (1240 / 3 : ℚ) = 240 + 5 * ((760 - 240) / 15) := by
  refine ⟨?_, by norm_num, by norm_num, by norm_num, by norm_num, by norm_num⟩
  have hsort : sortByX
      [⟨"a", 240, 250, "sixteenth"⟩, ⟨"b", 824 / 3, 300, "sixteenth"⟩,
        ⟨"c", 1240 / 3, 350, "sixteenth"⟩, ⟨"d", 344, 450, "sixteenth"⟩]
      = [⟨"a", 240, 250, "sixteenth"⟩, ⟨"b", 824 / 3, 300, "sixteenth"⟩,
        ⟨"d", 344, 450, "sixteenth"⟩, ⟨"c", 1240 / 3, 350, "sixteenth"⟩] := by
    apply sortByX_eq_of_sorted _ _
      (List.Perm.cons _ (List.Perm.cons _ (List.Perm.swap _ _ [])))
    norm_num [List.pairwise_cons]
  unfold groupNotesForBeaming
  rw [hsort]
  simp only []
  rw [List.foldl_cons, groupStep_start _ _ (Or.inr rfl)]
  rw [List.foldl_cons, groupStep_near _ _ _ (by simp) (Or.inr rfl)
    (show (824 / 3 : ℚ) - 240 ≤ 70 from by norm_num)]
  rw [List.foldl_cons, groupStep_near _ _ _ (by simp) (Or.inr rfl)
    (show (344 : ℚ) - 824 / 3 ≤ 70 from by norm_num)]
  rw [List.foldl_cons, groupStep_near _ _ _ (by simp) (Or.inr rfl)
    (show (1240 / 3 : ℚ) - 344 ≤ 70 from by norm_num)]
  rw [List.foldl_nil]
  simp

/-- C6 amended: in every measure that is not first in its track (grid step
48), four sixteenth notes at consecutive grid positions p..p+3 with the third
moved to a grid position not adjacent to the others (two or more grid steps
away from each remaining note) re-derive to beam groups none of which spans
the vacated position p+2: a two-step gap is 96 units there, beyond the 70-unit
maximum beam distance. -/
theorem beam_gap_nonfirst_spec (p q : ℕ) (hp : p + 3 ≤ 15) (hq : q ≤ 15)
    (hgap : q + 2 ≤ p ∨ p + 5 ≤ q) (y0 y1 y2 y3 : ℚ) (i0 i1 i2 i3 : String) :
    ∀ g ∈ groupNotesForBeaming
        [⟨i0, 40 + 48 * (p : ℚ), y0, "sixteenth"⟩,
          ⟨i1, 40 + 48 * ((p : ℚ) + 1), y1, "sixteenth"⟩,
          ⟨i2, 40 + 48 * (q : ℚ), y2, "sixteenth"⟩,
          ⟨i3, 40 + 48 * ((p : ℚ) + 3), y3, "sixteenth"⟩],
      ¬ ∃ a ∈ g, ∃ b ∈ g,
          a.x < 40 + 48 * ((p : ℚ) + 2) ∧ 40 + 48 * ((p : ℚ) + 2) < b.x := by
  suffices hmain : groupNotesForBeaming
      [⟨i0, 40 + 48 * (p : ℚ), y0, "sixteenth"⟩,
        ⟨i1, 40 + 48 * ((p : ℚ) + 1), y1, "sixteenth"⟩,
        ⟨i2, 40 + 48 * (q : ℚ), y2, "sixteenth"⟩,
        ⟨i3, 40 + 48 * ((p : ℚ) + 3), y3, "sixteenth"⟩]
      = [[⟨i0, 40 + 48 * (p : ℚ), y0, "sixteenth"⟩,
          ⟨i1, 40 + 48 * ((p : ℚ) + 1), y1, "sixteenth"⟩]] by
    rw [hmain]
    intro g hg
    rw [List.mem_singleton] at hg
    subst hg
    rintro ⟨a, ha, b, hb, h1, h2⟩
    fin_cases hb
    · revert h2
      show ¬ (40 + 48 * ((p : ℚ) + 2) < 40 + 48 * (p : ℚ))
      linarith
    · revert h2
      show ¬ (40 + 48 * ((p : ℚ) + 2) < 40 + 48 * ((p : ℚ) + 1))
      linarith
  rcases hgap with hq2 | hq5
  · have hq' : (q : ℚ) + 2 ≤ (p : ℚ) := by exact_mod_cast hq2
    have hsort : sortByX
        [⟨i0, 40 + 48 * (p : ℚ), y0, "sixteenth"⟩,
          ⟨i1, 40 + 48 * ((p : ℚ) + 1), y1, "sixteenth"⟩,
          ⟨i2, 40 + 48 * (q : ℚ), y2, "sixteenth"⟩,
          ⟨i3, 40 + 48 * ((p : ℚ) + 3), y3, "sixteenth"⟩]
        = [⟨i2, 40 + 48 * (q : ℚ), y2, "sixteenth"⟩,
          ⟨i0, 40 + 48 * (p : ℚ), y0, "sixteenth"⟩,
          ⟨i1, 40 + 48 * ((p : ℚ) + 1), y1, "sixteenth"⟩,
          ⟨i3, 40 + 48 * ((p : ℚ) + 3), y3, "sixteenth"⟩] := by
      apply sortByX_eq_of_sorted _ _
        ((List.Perm.cons _ (List.Perm.swap _ _ _)).trans (List.Perm.swap _ _ _))
      refine List.Pairwise.cons ?_ (List.Pairwise.cons ?_ (List.Pairwise.cons ?_
        (List.pairwise_singleton _ _)))
      · intro b hb
        fin_cases hb
        · show 40 + 48 * (q : ℚ) < 40 + 48 * (p : ℚ)
          linarith
        · show 40 + 48 * (q : ℚ) < 40 + 48 * ((p : ℚ) + 1)
          linarith
        · show 40 + 48 * (q : ℚ) < 40 + 48 * ((p : ℚ) + 3)
          linarith
      · intro b hb
        fin_cases hb
        · show 40 + 48 * (p : ℚ) < 40 + 48 * ((p : ℚ) + 1)
          linarith
        · show 40 + 48 * (p : ℚ) < 40 + 48 * ((p : ℚ) + 3)
          linarith
      · intro b hb
        fin_cases hb
        show 40 + 48 * ((p : ℚ) + 1) < 40 + 48 * ((p : ℚ) + 3)
        linarith
    unfold groupNotesForBeaming
    rw [hsort]
    simp only []
    rw [List.foldl_cons, groupStep_start _ _ (Or.inr rfl)]
    rw [List.foldl_cons, groupStep_far_drop _ _ _ (by norm_num) (by simp) (Or.inr rfl)
      (show ¬ (40 + 48 * (p : ℚ) - (40 + 48 * (q : ℚ)) ≤ 70) from by
        push_neg
        linarith)]
    rw [List.foldl_cons, groupStep_near _ _ _ (by simp) (Or.inr rfl)
      (show 40 + 48 * ((p : ℚ) + 1) - (40 + 48 * (p : ℚ)) ≤ 70 from by linarith)]
    rw [List.foldl_cons, groupStep_far_push _ _ _ (by norm_num) (Or.inr rfl)
      (show ¬ (40 + 48 * ((p : ℚ) + 3) - (40 + 48 * ((p : ℚ) + 1)) ≤ 70) from by
        push_neg
        linarith)]
    rw [List.foldl_nil]
    simp
  · have hq' : (p : ℚ) + 5 ≤ (q : ℚ) := by exact_mod_cast hq5
    have hsort : sortByX
        [⟨i0, 40 + 48 * (p : ℚ), y0, "sixteenth"⟩,
          ⟨i1, 40 + 48 * ((p : ℚ) + 1), y1, "sixteenth"⟩,
          ⟨i2, 40 + 48 * (q : ℚ), y2, "sixteenth"⟩,
          ⟨i3, 40 + 48 * ((p : ℚ) + 3), y3, "sixteenth"⟩]
        = [⟨i0, 40 + 48 * (p : ℚ), y0, "sixteenth"⟩,
          ⟨i1, 40 + 48 * ((p : ℚ) + 1), y1, "sixteenth"⟩,
          ⟨i3, 40 + 48 * ((p : ℚ) + 3), y3, "sixteenth"⟩,
          ⟨i2, 40 + 48 * (q : ℚ), y2, "sixteenth"⟩] := by
      apply sortByX_eq_of_sorted _ _
        (List.Perm.cons _ (List.Perm.cons _ (List.Perm.swap _ _ [])))
      refine List.Pairwise.cons ?_ (List.Pairwise.cons ?_ (List.Pairwise.cons ?_
        (List.pairwise_singleton _ _)))
      · intro b hb
        fin_cases hb
        · show 40 + 48 * (p : ℚ) < 40 + 48 * ((p : ℚ) + 1)
          linarith
        · show 40 + 48 * (p : ℚ) < 40 + 48 * ((p : ℚ) + 3)
          linarith
        · show 40 + 48 * (p : ℚ) < 40 + 48 * (q : ℚ)
          linarith
      · intro b hb
        fin_cases hb
        · show 40 + 48 * ((p : ℚ) + 1) < 40 + 48 * ((p : ℚ) + 3)
          linarith
        · show 40 + 48 * ((p : ℚ) + 1) < 40 + 48 * (q : ℚ)
          linarith
      · intro b hb
        fin_cases hb
        show 40 + 48 * ((p : ℚ) + 3) < 40 + 48 * (q : ℚ)
        linarith
    unfold groupNotesForBeaming
    rw [hsort]
    simp only []
    rw [List.foldl_cons, groupStep_start _ _ (Or.inr rfl)]
    rw [List.foldl_cons, groupStep_near _ _ _ (by simp) (Or.inr rfl)
      (show 40 + 48 * ((p : ℚ) + 1) - (40 + 48 * (p : ℚ)) ≤ 70 from by linarith)]
    rw [List.foldl_cons, groupStep_far_push _ _ _ (by norm_num) (Or.inr rfl)
      (show ¬ (40 + 48 * ((p : ℚ) + 3) - (40 + 48 * ((p : ℚ) + 1)) ≤ 70) from by
        push_neg
        linarith)]
    rw [List.foldl_cons, groupStep_far_drop _ _ _ (by norm_num) (by simp) (Or.inr rfl)
      (show ¬ (40 + 48 * (q : ℚ) - (40 + 48 * ((p : ℚ) + 3)) ≤ 70) from by
        push_neg
        linarith)]
    rw [List.foldl_nil]
    simp

/-- C6 witness: the non-first-measure theorem at p = 0, q = 5. -/
theorem beam_gap_nonfirst_spec_witness :
    ((0 : ℕ) + 3 ≤ 15 ∧ (5 : ℕ) ≤ 15 ∧ ((5 : ℕ) + 2 ≤ 0 ∨ (0 : ℕ) + 5 ≤ 5)) ∧
    ∀ g ∈ groupNotesForBeaming
        [⟨"a", 40 + 48 * ((0 : ℕ) : ℚ), 250, "sixteenth"⟩,
          ⟨"b", 40 + 48 * (((0 : ℕ) : ℚ) + 1), 300, "sixteenth"⟩,
          ⟨"c", 40 + 48 * ((5 : ℕ) : ℚ), 350, "sixteenth"⟩,
          ⟨"d", 40 + 48 * (((0 : ℕ) : ℚ) + 3), 450, "sixteenth"⟩],
      ¬ ∃ a ∈ g, ∃ b ∈ g,
          a.x < 40 + 48 * (((0 : ℕ) : ℚ) + 2) ∧ 40 + 48 * (((0 : ℕ) : ℚ) + 2) < b.x :=
  ⟨⟨by norm_num, by norm_num, Or.inr (by norm_num)⟩,
    beam_gap_nonfirst_spec 0 5 (by norm_num) (by norm_num) (Or.inr (by norm_num))
      250 300 350 450 "a" "b" "c" "d"⟩

/-- A non-beamable note closes a run of length ≥ 2. -/
lemma groupStep_notBeamable_push (gs : List (List PlacedNote)) (cg : List PlacedNote)
    (note : PlacedNote) (hnb : ¬ (note.duration = "eighth" ∨ note.duration = "sixteenth"))
    (hlen : 2 ≤ cg.length) :
    groupStep (gs, cg) note = (gs ++ [cg], []) := by
  simp [groupStep, hnb, hlen]

/-- A non-beamable note drops a run of length < 2. -/
lemma groupStep_notBeamable_drop (gs : List (List PlacedNote)) (cg : List PlacedNote)
    (note : PlacedNote) (hnb : ¬ (note.duration = "eighth" ∨ note.duration = "sixteenth"))
    (hlen : ¬ 2 ≤ cg.length) :
    groupStep (gs, cg) note = (gs, []) := by
  simp [groupStep, hnb, hlen]

/-- groupStep preserves the accumulator shape: completed groups have length at
least 2 and only beamable durations, and the current run is beamable. -/
lemma groupStep_shape (acc : List (List PlacedNote) × List PlacedNote) (note : PlacedNote)
    (h1 : ∀ g ∈ acc.1, 2 ≤ g.length ∧
      ∀ n ∈ g, n.duration = "eighth" ∨ n.duration = "sixteenth")
    (h2 : ∀ n ∈ acc.2, n.duration = "eighth" ∨ n.duration = "sixteenth") :
    (∀ g ∈ (groupStep acc note).1, 2 ≤ g.length ∧
      ∀ n ∈ g, n.duration = "eighth" ∨ n.duration = "sixteenth") ∧
    (∀ n ∈ (groupStep acc note).2,
      n.duration = "eighth" ∨ n.duration = "sixteenth") := by
  obtain ⟨gs, cg⟩ := acc
  by_cases hbeam : note.duration = "eighth" ∨ note.duration = "sixteenth"
  · by_cases hzero : cg = []
    · subst hzero
      rw [groupStep_start gs note hbeam]
      refine ⟨h1, fun n hn => ?_⟩
      rw [List.mem_singleton] at hn
      subst hn
      exact hbeam
    · by_cases hdist : note.x - (cg.getLast?.getD default).x ≤ MAX_BEAM_DISTANCE
      · rw [groupStep_near gs cg note hzero hbeam hdist]
        refine ⟨h1, fun n hn => ?_⟩
        rcases List.mem_append.mp hn with hn' | hn'
        · exact h2 n hn'
        · rw [List.mem_singleton] at hn'
          subst hn'
          exact hbeam
      · by_cases hlen : 2 ≤ cg.length
        · rw [groupStep_far_push gs cg note hlen hbeam hdist]
          refine ⟨fun g hg => ?_, fun n hn => ?_⟩
          · rcases List.mem_append.mp hg with hg' | hg'
            · exact h1 g hg'
            · rw [List.mem_singleton] at hg'
              subst hg'
              exact ⟨hlen, h2⟩
          · rw [List.mem_singleton] at hn
            subst hn
            exact hbeam
        · rw [groupStep_far_drop gs cg note hlen hzero hbeam hdist]
          refine ⟨h1, fun n hn => ?_⟩
          rw [List.mem_singleton] at hn
          subst hn
          exact hbeam
  · by_cases hlen : 2 ≤ cg.length
    · rw [groupStep_notBeamable_push gs cg note hbeam hlen]
      refine ⟨fun g hg => ?_, by simp⟩
      rcases List.mem_append.mp hg with hg' | hg'
      · exact h1 g hg'
      · rw [List.mem_singleton] at hg'
        subst hg'
        exact ⟨hlen, h2⟩
    · rw [groupStep_notBeamable_drop gs cg note hbeam hlen]
      exact ⟨h1, by simp⟩

/-- Folding groupStep preserves the accumulator shape. -/
lemma foldl_groupStep_shape (l : List PlacedNote) :
    ∀ acc : List (List PlacedNote) × List PlacedNote,
      (∀ g ∈ acc.1, 2 ≤ g.length ∧
        ∀ n ∈ g, n.duration = "eighth" ∨ n.duration = "sixteenth") →
      (∀ n ∈ acc.2, n.duration = "eighth" ∨ n.duration = "sixteenth") →
      (∀ g ∈ (l.foldl groupStep acc).1, 2 ≤ g.length ∧
        ∀ n ∈ g, n.duration = "eighth" ∨ n.duration = "sixteenth") ∧
      (∀ n ∈ (l.foldl groupStep acc).2,
        n.duration = "eighth" ∨ n.duration = "sixteenth") := by
  induction l with
  | nil => intro acc h1 h2; exact ⟨h1, h2⟩
  | cons a t ih =>
    intro acc h1 h2
    rw [List.foldl_cons]
    have h := groupStep_shape acc a h1 h2
    exact ih _ h.1 h.2

/-- One groupStep keeps (flattened groups ++ current run) a sublist of the
processed input. -/
lemma groupStep_sublist (acc : List (List PlacedNote) × List PlacedNote)
    (note : PlacedNote) (done : List PlacedNote)
    (h : (acc.1.flatten ++ acc.2).Sublist done) :
    (((groupStep acc note).1.flatten ++ (groupStep acc note).2).Sublist
      (done ++ [note])) := by
  obtain ⟨gs, cg⟩ := acc
  by_cases hbeam : note.duration = "eighth" ∨ note.duration = "sixteenth"
  · by_cases hzero : cg = []
    · subst hzero
      rw [groupStep_start gs note hbeam]
      have h' : gs.flatten.Sublist done := by simpa using h
      exact h'.append (List.Sublist.refl [note])
    · by_cases hdist : note.x - (cg.getLast?.getD default).x ≤ MAX_BEAM_DISTANCE
      · rw [groupStep_near gs cg note hzero hbeam hdist]
        rw [show gs.flatten ++ (cg ++ [note]) = (gs.flatten ++ cg) ++ [note] from
          (List.append_assoc _ _ _).symm]
        exact h.append (List.Sublist.refl [note])
      · by_cases hlen : 2 ≤ cg.length
        · rw [groupStep_far_push gs cg note hlen hbeam hdist]
          rw [show (gs ++ [cg]).flatten = gs.flatten ++ cg from by simp]
          exact h.append (List.Sublist.refl [note])
        · rw [groupStep_far_drop gs cg note hlen hzero hbeam hdist]
          have h' : gs.flatten.Sublist done :=
            (List.sublist_append_left gs.flatten cg).trans h
          exact h'.append (List.Sublist.refl [note])
  · by_cases hlen : 2 ≤ cg.length
    · rw [groupStep_notBeamable_push gs cg note hbeam hlen]
      have h2 : (gs.flatten ++ cg).Sublist (done ++ [note]) :=
        h.trans (List.sublist_append_left done [note])
      simpa using h2
    · rw [groupStep_notBeamable_drop gs cg note hbeam hlen]
      have h2 : gs.flatten.Sublist (done ++ [note]) :=
        ((List.sublist_append_left gs.flatten cg).trans h).trans
          (List.sublist_append_left done [note])
      simpa using h2

/-- Folding groupStep keeps (flattened groups ++ current run) a sublist of the
input processed so far. -/
lemma foldl_groupStep_sublist (l : List PlacedNote) :
    ∀ (acc : List (List PlacedNote) × List PlacedNote) (done : List PlacedNote),
      (acc.1.flatten ++ acc.2).Sublist done →
      (((l.foldl groupStep acc).1.flatten ++ (l.foldl groupStep acc).2).Sublist
        (done ++ l)) := by
  induction l with
  | nil => intro acc done h; simpa using h
  | cons a t ih =>
    intro acc done h
    rw [List.foldl_cons]
    have h2 := groupStep_sublist acc a done h
    have h3 := ih (groupStep acc a) (done ++ [a]) h2
    simpa [List.append_assoc] using h3

/-- The flattened beam groups form a sublist of the x-sorted input. -/
lemma flatten_groups_sublist (notes : List PlacedNote) :
    ((groupNotesForBeaming notes).flatten).Sublist (sortByX notes) := by
  have h := foldl_groupStep_sublist (sortByX notes) ([], []) [] (by simp)
  unfold groupNotesForBeaming
  simp only []
  split_ifs with hlen
  · rw [show (((sortByX notes).foldl groupStep ([], [])).1
        ++ [((sortByX notes).foldl groupStep ([], [])).2]).flatten
      = ((sortByX notes).foldl groupStep ([], [])).1.flatten
        ++ ((sortByX notes).foldl groupStep ([], [])).2 from by simp]
    simpa using h
  · exact (List.sublist_append_left _ _).trans (by simpa using h)

/-- Every beam group has at least two members, all of beamable duration. -/
lemma groupNotesForBeaming_shape (notes : List PlacedNote) :
    ∀ g ∈ groupNotesForBeaming notes, 2 ≤ g.length ∧
      ∀ n ∈ g, n.duration = "eighth" ∨ n.duration = "sixteenth" := by
  have h := foldl_groupStep_shape (sortByX notes) ([], []) (by simp) (by simp)
  unfold groupNotesForBeaming
  simp only []
  split_ifs with hlen
  · intro g hg
    rcases List.mem_append.mp hg with hg' | hg'
    · exact h.1 g hg'
    · rw [List.mem_singleton] at hg'
      subst hg'
      exact ⟨hlen, h.2⟩
  · exact h.1

/-- C5: on a note list with pairwise-distinct ids, groupNotesForBeaming
together with getUnbeamedNotes partitions the notes — each note occurs exactly
once across the flattened beam groups and the unbeamed list combined — and
every returned beam group has at least 2 members, all of duration eighth or
sixteenth. -/
theorem beaming_partition (notes : List PlacedNote)
    (h : (notes.map PlacedNote.id).Nodup) :
    (∀ g ∈ groupNotesForBeaming notes, 2 ≤ g.length ∧
      ∀ n ∈ g, n.duration = "eighth" ∨ n.duration = "sixteenth") ∧
    ∀ n ∈ notes,
      ((groupNotesForBeaming notes).flatten.count n)
        + ((getUnbeamedNotes notes (groupNotesForBeaming notes)).count n) = 1 := by
  refine ⟨groupNotesForBeaming_shape notes, fun n hn => ?_⟩
  have hGsub := flatten_groups_sublist notes
  have hperm := sortByX_perm notes
  have hnodup_notes : notes.Nodup := List.Nodup.of_map PlacedNote.id h
  have hnodup_sorted : (sortByX notes).Nodup := hperm.nodup_iff.mpr hnodup_notes
  have hGnodup : ((groupNotesForBeaming notes).flatten).Nodup :=
    hGsub.nodup hnodup_sorted
  have hfilter : getUnbeamedNotes notes (groupNotesForBeaming notes)
      = notes.filter (fun note =>
          !(((groupNotesForBeaming notes).flatten.map (fun m => m.id)).contains note.id)) :=
    rfl
  by_cases hmem : n ∈ (groupNotesForBeaming notes).flatten
  · have hcount1 := List.count_eq_one_of_mem hGnodup hmem
    have hid : n.id ∈ (groupNotesForBeaming notes).flatten.map (fun m => m.id) :=
      List.mem_map_of_mem _ hmem
    have hnotmem : n ∉ getUnbeamedNotes notes (groupNotesForBeaming notes) := by
      rw [hfilter]
      intro hc
      have := (List.mem_filter.mp hc).2
      rw [Bool.not_eq_true', ← Bool.not_eq_true] at this
      exact this (List.elem_iff.mpr hid)
    rw [hcount1, List.count_eq_zero_of_not_mem hnotmem]
  · have hcount0 := List.count_eq_zero_of_not_mem hmem
    have hid : n.id ∉ (groupNotesForBeaming notes).flatten.map (fun m => m.id) := by
      intro hc
      obtain ⟨m, hmG, hmid⟩ := List.mem_map.mp hc
      have hmnotes : m ∈ notes := hperm.mem_iff.mp (hGsub.subset hmG)
      have hmn : m = n := List.inj_on_of_nodup_map h hmnotes hn hmid
      exact hmem (hmn ▸ hmG)
    have hp : (fun note : PlacedNote =>
        !(((groupNotesForBeaming notes).flatten.map (fun m => m.id)).contains note.id)) n
        = true := by
      rw [Bool.not_eq_true']
      rw [← Bool.not_eq_true]
      intro hc
      exact hid (List.elem_iff.mp hc)
    rw [hcount0, hfilter, @List.count_filter PlacedNote _ _
      (fun note => !(((groupNotesForBeaming notes).flatten.map
        (fun m => m.id)).contains note.id)) n notes hp,
      List.count_eq_one_of_mem hnodup_notes hn]

/-- C5 witness: a concrete measure with an eighth-note pair split by a quarter
note. -/
theorem beaming_partition_witness :
    (([⟨"a", 40, 250, "eighth"⟩, ⟨"b", 88, 300, "quarter"⟩,
        ⟨"c", 136, 350, "eighth"⟩] : List PlacedNote).map PlacedNote.id).Nodup ∧
    ((∀ g ∈ groupNotesForBeaming
        [⟨"a", 40, 250, "eighth"⟩, ⟨"b", 88, 300, "quarter"⟩,
          ⟨"c", 136, 350, "eighth"⟩], 2 ≤ g.length ∧
        ∀ n ∈ g, n.duration = "eighth" ∨ n.duration = "sixteenth") ∧
      ∀ n ∈ ([⟨"a", 40, 250, "eighth"⟩, ⟨"b", 88, 300, "quarter"⟩,
          ⟨"c", 136, 350, "eighth"⟩] : List PlacedNote),
        ((groupNotesForBeaming
            [⟨"a", 40, 250, "eighth"⟩, ⟨"b", 88, 300, "quarter"⟩,
              ⟨"c", 136, 350, "eighth"⟩]).flatten.count n)
          + ((getUnbeamedNotes
              [⟨"a", 40, 250, "eighth"⟩, ⟨"b", 88, 300, "quarter"⟩,
                ⟨"c", 136, 350, "eighth"⟩]
              (groupNotesForBeaming
                [⟨"a", 40, 250, "eighth"⟩, ⟨"b", 88, 300, "quarter"⟩,
                  ⟨"c", 136, 350, "eighth"⟩])).count n) = 1) :=
  ⟨by simp, beaming_partition _ (by simp)⟩

end Noteplop
